import Mathlib

/-!
Verification development for `examples/hh/generate_hh_simple.py` of the
llm-swarm repository.  The Python functions `send_request`, `reader` and
`writer` are shallowly embedded as Lean functions below; the orchestrator
`generate_data` (package `tgi_swarm`, not among the visible sources) is
modelled from the specification where a claim needs it.
-/

/-! ## Python string primitives used by the example

Python strings are modelled through their character sequences (`String.data`).
-/

/-- The whitespace test of Python `str.rstrip()` (ASCII whitespace). -/
def pyIsSpace (c : Char) : Bool :=
  c == ' ' || c == '\t' || c == '\n' || c == '\r' || c == '\x0b' || c == '\x0c'

/-- Python `s.rstrip()`: remove trailing whitespace characters. -/
def pyRstrip (s : String) : String :=
  ⟨(s.data.reverse.dropWhile pyIsSpace).reverse⟩

/-- Python `s.endswith(suf)`. -/
def pyEndswith (s suf : String) : Bool :=
  suf.data.isSuffixOf s.data

/-- Python `s[:-n]` for `n ≥ 1` (also correct for `n = 0` slices never used here
with a nonempty drop): keep all but the last `n` characters. -/
def pyDropRight (s : String) (n : Nat) : String :=
  ⟨s.data.take (s.data.length - n)⟩

/-! ## `send_request` (generate_hh_simple.py, lines 69-108) -/

/-- Source line 69: `STOP_SEQ = ["User:", "###", "<|endoftext|>"]`. -/
def STOP_SEQ : List String := ["User:", "###", "<|endoftext|>"]

/-- The stop-marker post-processing loop of `send_request`
(lines 84-86 and 97-99):
`for stop_seq in STOP_SEQ: if res.endswith(stop_seq): res = res[:-len(stop_seq)].rstrip()`.
Note this is a single in-order pass over `STOP_SEQ`, so after one marker is
removed a marker later in the list may be removed from the shortened string
as well. -/
def stripStopSeqs (res : String) : String :=
  STOP_SEQ.foldl
    (fun r stop => if pyEndswith r stop then pyRstrip (pyDropRight r stop.length) else r) res

/-- The observable outcome of one backend call made inside the `while` loop of
`send_request`: a generated text, an `aiohttp.ClientError`, or a
`json.decoder.JSONDecodeError` raised by `json.loads` of the response body. -/
inductive Outcome where
  | ok (text : String)
  | clientError
  | jsonDecodeError
deriving DecidableEq

/-- How an execution of the `send_request` retry loop ends.  `exhausted` marks
a trace that ran out of recorded backend outcomes (the loop itself would keep
running). -/
inductive ReqRes where
  | done (res : String)
  | raisedClientError
  | raisedDecodeError
  | exhausted
deriving DecidableEq

/-- Observable behaviour of one run of the `send_request` loop: the terminal
result, the total `asyncio.sleep` time units, and the number of backend calls
issued. -/
structure RunStats where
  result : ReqRes
  totalSleep : Nat
  calls : Nat
deriving DecidableEq

/-- The retry loop of `send_request` (lines 72-106), driven by the list of
backend-call outcomes.  Faithful points of the source:
* `tries` starts at 1 (line 73); the loop runs `while not res` (line 74), so a
  post-processed result equal to the empty string (falsy in Python) causes a
  further backend call without touching `tries`;
* the clause `except ClientError or json.decoder.JSONDecodeError` (line 101)
  evaluates its operand to the class `ClientError`, hence only `ClientError`
  is caught; a `JSONDecodeError` propagates at once;
* on a caught error with `tries == 10` the error is re-raised (lines 102-103),
  otherwise the worker sleeps `tries * 2 + 3` and increments `tries`
  (lines 105-106). -/
def sendRequestGo : List Outcome → Nat → RunStats
  | [], _ => ⟨ReqRes.exhausted, 0, 0⟩
  | Outcome.ok text :: rest, tries =>
      if stripStopSeqs text = "" then
        let s := sendRequestGo rest tries
        ⟨s.result, s.totalSleep, s.calls + 1⟩
      else ⟨ReqRes.done (stripStopSeqs text), 0, 1⟩
  | Outcome.clientError :: rest, tries =>
      if tries = 10 then ⟨ReqRes.raisedClientError, 0, 1⟩
      else
        let s := sendRequestGo rest (tries + 1)
        ⟨s.result, s.totalSleep + (tries * 2 + 3), s.calls + 1⟩
  | Outcome.jsonDecodeError :: _, _ => ⟨ReqRes.raisedDecodeError, 0, 1⟩

/-- Values stored in a sample dictionary (`index` is an integer, every other
field of the hh example is a string). -/
inductive Val where
  | vstr (s : String)
  | vnat (n : Nat)
deriving DecidableEq

/-- Python dictionary assignment `d[k] = v` on an insertion-ordered mapping:
replace the value of an existing key in place, otherwise append the new pair. -/
def dictSet (d : List (String × Val)) (k : String) (v : Val) : List (String × Val) :=
  if k ∈ d.map Prod.fst then
    d.map (fun p => if p.1 = k then (k, v) else p)
  else d ++ [(k, v)]

/-- Python dictionary read `d[k]` (first pair with the key; keys are unique in
an actual dictionary). -/
def pyGet : List (String × Val) → String → Option Val
  | [], _ => none
  | (k2, v) :: rest, k => if k2 = k then some v else pyGet rest k

/-- Function `send_request` (lines 71-108): run the retry loop on the recorded backend
outcomes; on success execute `sample["continuation"] = res; return sample`
(lines 107-108).  Any raised error (or an exhausted trace) yields `none`. -/
def send_request (sample : List (String × Val)) (outcomes : List Outcome) :
    Option (List (String × Val)) :=
  match (sendRequestGo outcomes 1).result with
  | ReqRes.done res => some (dictSet sample "continuation" (Val.vstr res))
  | _ => none

/-! ## `reader` (generate_hh_simple.py, lines 43-62) -/

/-- A message placed on the input queue: a work item (`{"index": si, ...}`)
or the `SENTINEL`. -/
inductive QMsg (α : Type) where
  | item (index : Nat) (payload : α)
  | sentinel
deriving DecidableEq

/-- The enqueue loop of `reader` (lines 57-61):
`for si, sample in enumerate(rw): if si < start_index: continue;
input_queue.put({"index": si, "prompt": sample["prompt"]})` followed by
`input_queue.put(SENTINEL)`.  `si` is the running enumeration counter. -/
def readerLoop {α : Type} (start : Nat) : Nat → List α → List (QMsg α)
  | _, [] => [QMsg.sentinel]
  | si, a :: rest =>
      if si < start then readerLoop start (si + 1) rest
      else QMsg.item si a :: readerLoop start (si + 1) rest

/-- Function `reader(input_queue, start_index)`: the sequence of `put` calls issued for
the dataset `ds` (already mapped through the prompt extraction, which is
opaque here) and resume offset `start`. -/
def reader {α : Type} (ds : List α) (start : Nat) : List (QMsg α) :=
  readerLoop start 0 ds

/-! ## `writer` (generate_hh_simple.py, lines 65-67) -/

/-- The decimal digit character of `d` (for `d < 10`). -/
def ch (d : Nat) : Char := Char.ofNat (48 + d)

/-- Decimal digit characters of `n`, most significant first, empty for `0`
(the zero padding below restores the `0` digit).  Fuel-indexed; a fuel of 20
covers every `Nat` the program can format. -/
def decChars : Nat → Nat → List Char
  | 0, _ => []
  | fuel + 1, n => if n = 0 then [] else decChars fuel (n / 10) ++ [ch (n % 10)]

/-- Python `f"{n:05d}"`: the decimal digits of `n` left-padded with `'0'` to a
minimum width of 5 (wider numbers are rendered in full). -/
def pad05 (n : Nat) : List Char :=
  List.replicate (5 - (decChars 20 n).length) '0' ++ decChars 20 n

/-- The file name used by `writer` (line 67): `f"{chunk_i:05d}.csv"`
(the output-folder part is common to every chunk and omitted). -/
def chunkFileName (n : Nat) : String :=
  ⟨pad05 n ++ (".csv").data⟩

/-! ## Chunk aggregation of `generate_data` -/

/-- Fuel-indexed splitting of a list into consecutive blocks of `C` elements
(the final block may be shorter); fuel at least the list length suffices for
`C ≥ 1`. -/
def chunkFuel {α : Type} (C : Nat) : Nat → List α → List (List α)
  | _, [] => []
  | 0, _ => []
  | fuel + 1, l => l.take C :: chunkFuel C fuel (l.drop C)

/-- Modelled from the spec: the result aggregator of `generate_data` (package
`tgi_swarm`, not among the visible sources) buffers completed items and
flushes a chunk after every `chunk_size` completed items, plus one final
(possibly shorter) chunk when the run drains; so the sequence of completed
items is split into consecutive blocks of `chunk_size`. -/
def chunksOf {α : Type} (C : Nat) (l : List α) : List (List α) :=
  chunkFuel C l.length l

/-! ## Spec-side digit helpers for the file-name order proof -/

/-- The five decimal digits of `n < 100000`, most significant first. -/
def digits5 (n : Nat) : List Nat :=
  [n / 10000, n / 1000 % 10, n / 100 % 10, n / 10 % 10, n % 10]

/-- Numeric value of a big-endian digit list. -/
def valD : List Nat → Nat
  | [] => 0
  | d :: ds => d * 10 ^ ds.length + valD ds

/-! ## Lemmas about the retry loop -/

/-- Unfolding step: a `ClientError` outcome below the ceiling recurses with an
incremented attempt counter, one more backend call and one backoff sleep. -/
theorem sendRequestGo_clientError_cons (rest : List Outcome) (tries : Nat)
    (h : tries ≠ 10) :
    sendRequestGo (Outcome.clientError :: rest) tries =
      ⟨(sendRequestGo rest (tries + 1)).result,
        (sendRequestGo rest (tries + 1)).totalSleep + (tries * 2 + 3),
        (sendRequestGo rest (tries + 1)).calls + 1⟩ := by
  simp [sendRequestGo, h]

/-- Unfolding step: a generated text with nonempty post-processed form ends the
loop immediately with a single backend call and no sleep. -/
theorem sendRequestGo_ok_cons (t : String) (rest : List Outcome) (tries : Nat)
    (h : stripStopSeqs t ≠ "") :
    sendRequestGo (Outcome.ok t :: rest) tries =
      ⟨ReqRes.done (stripStopSeqs t), 0, 1⟩ := by
  simp [sendRequestGo, h]

/-- With the attempt ceiling reached after `k + 1` further failures
(`tries + k = 10`), a run of consecutive `ClientError` outcomes re-raises the
error on the call made at `tries = 10`. -/
theorem sendRequestGo_ceiling :
    ∀ (k tries : Nat) (rest : List Outcome), tries + k = 10 →
      (sendRequestGo (List.replicate (k + 1) Outcome.clientError ++ rest) tries).result =
          ReqRes.raisedClientError ∧
        (sendRequestGo (List.replicate (k + 1) Outcome.clientError ++ rest) tries).calls =
          k + 1 := by
  intro k
  induction k with
  | zero =>
      intro tries rest h
      have h10 : tries = 10 := by omega
      subst h10
      simp [sendRequestGo]
  | succ k ih =>
      intro tries rest h
      have hne : tries ≠ 10 := by omega
      have hrec := ih (tries + 1) rest (by omega)
      rw [List.replicate_succ, List.cons_append,
        sendRequestGo_clientError_cons _ _ hne]
      refine ⟨hrec.1, ?_⟩
      show (sendRequestGo (List.replicate (k + 1) Outcome.clientError ++ rest)
        (tries + 1)).calls + 1 = k + 1 + 1
      rw [hrec.2]

/-- After `M` consecutive `ClientError` outcomes below the ceiling
(`tries + M ≤ 10`) followed by a generated text whose post-processed form is
nonempty, the loop returns that text, having slept `(tries + a) * 2 + 3` units
before the `a`-th retry and issued `M + 1` backend calls. -/
theorem sendRequestGo_success :
    ∀ (M tries : Nat), tries + M ≤ 10 → ∀ (t : String), stripStopSeqs t ≠ "" →
      ∀ (rest : List Outcome),
      sendRequestGo (List.replicate M Outcome.clientError ++ Outcome.ok t :: rest) tries =
        ⟨ReqRes.done (stripStopSeqs t),
          ((List.range M).map (fun a => (tries + a) * 2 + 3)).sum, M + 1⟩ := by
  intro M
  induction M with
  | zero =>
      intro tries _ t ht rest
      simp [sendRequestGo, ht]
  | succ M ih =>
      intro tries hle t ht rest
      have hne : tries ≠ 10 := by omega
      have hrec := ih (tries + 1) (by omega) t ht rest
      rw [List.replicate_succ, List.cons_append,
        sendRequestGo_clientError_cons _ _ hne, hrec]
      have hsum : ((List.range (M + 1)).map (fun a => (tries + a) * 2 + 3)).sum =
          ((List.range M).map (fun a => (tries + 1 + a) * 2 + 3)).sum +
            (tries * 2 + 3) := by
        rw [List.range_succ_eq_map, List.map_cons, List.map_map, List.sum_cons]
        have hfun : ((fun a => (tries + a) * 2 + 3) ∘ Nat.succ) =
            (fun a => (tries + 1 + a) * 2 + 3) := by
          funext a
          simp only [Function.comp, Nat.succ_eq_add_one]
          ring
        rw [hfun]
        omega
      rw [hsum]

/-! ## Claims C1, C3, C4, C5: the retry loop -/

/-- Claim C1: with the attempt counter starting at 1 and a ceiling of 10, a
work item whose backend calls all fail with the caught transient error is
aborted by re-raising the error after exactly 10 attempts, while an item that
fails transiently exactly `M < 10` times and then succeeds yields a completed
result after `M + 1` calls. -/
theorem send_request_retry_bounds (M : Nat) (hM : M < 10) (t : String)
    (ht : stripStopSeqs t ≠ "") (rest rest2 : List Outcome) :
    ((sendRequestGo (List.replicate 10 Outcome.clientError ++ rest2) 1).result =
        ReqRes.raisedClientError ∧
      (sendRequestGo (List.replicate 10 Outcome.clientError ++ rest2) 1).calls = 10) ∧
      sendRequestGo (List.replicate M Outcome.clientError ++ Outcome.ok t :: rest) 1 =
        ⟨ReqRes.done (stripStopSeqs t),
          ((List.range M).map (fun a => (1 + a) * 2 + 3)).sum, M + 1⟩ := by
  constructor
  · exact sendRequestGo_ceiling 9 1 rest2 (by omega)
  · exact sendRequestGo_success M 1 (by omega) t ht rest

/-- Witness for C1 at `M = 2`, `t = "hi"`. -/
theorem send_request_retry_bounds_witness :
    2 < 10 ∧ stripStopSeqs "hi" ≠ "" ∧
      sendRequestGo (List.replicate 2 Outcome.clientError ++ Outcome.ok "hi" :: []) 1 =
        ⟨ReqRes.done (stripStopSeqs "hi"),
          ((List.range 2).map (fun a => (1 + a) * 2 + 3)).sum, 2 + 1⟩ :=
  ⟨by decide, by decide,
    (send_request_retry_bounds 2 (by decide) "hi" (by decide) [] []).2⟩

/-- Claim C3 is refuted by the code: `except ClientError or
json.decoder.JSONDecodeError` catches only `ClientError`, so a malformed
response (JSON decode failure) aborts on the very first attempt with no retry
and no backoff, while the same trace with a network error in place of the
decode error is retried and succeeds. -/
theorem decode_error_aborts_first_attempt :
    sendRequestGo [Outcome.jsonDecodeError, Outcome.ok "recovered"] 1 =
        ⟨ReqRes.raisedDecodeError, 0, 1⟩ ∧
      sendRequestGo [Outcome.clientError, Outcome.ok "recovered"] 1 =
        ⟨ReqRes.done "recovered", 5, 2⟩ := by decide

/-- Counterexample to claim C4 as stated: the first backend call succeeds and
produces a result (the text `"###"`, post-processed to the empty string), yet
the loop (`while not res`, empty string falsy) issues a second backend call. -/
theorem success_empty_result_retries :
    sendRequestGo [Outcome.ok "###", Outcome.ok "generated"] 1 =
        ⟨ReqRes.done "generated", 0, 2⟩ ∧
      stripStopSeqs "###" = "" := by decide

/-- Claim C4 (amended): once an attempt succeeds with a nonempty
post-processed result, the item is never retried: the run is unaffected by
any outcomes recorded after that attempt, and exactly `M + 1` backend calls
are issued when `M < 10` transient failures preceded it. -/
theorem send_request_no_retry_after_success (M : Nat) (hM : M < 10) (t : String)
    (ht : stripStopSeqs t ≠ "") (rest extra : List Outcome) :
    sendRequestGo (List.replicate M Outcome.clientError ++ Outcome.ok t :: rest) 1 =
        sendRequestGo (List.replicate M Outcome.clientError ++ Outcome.ok t :: extra) 1 ∧
      (sendRequestGo (List.replicate M Outcome.clientError ++ Outcome.ok t :: rest) 1).calls =
        M + 1 := by
  rw [sendRequestGo_success M 1 (by omega) t ht rest,
    sendRequestGo_success M 1 (by omega) t ht extra]
  exact ⟨rfl, rfl⟩

/-- Witness for C4 (amended) at `M = 0`: pending outcomes after the success
are ignored. -/
theorem send_request_no_retry_after_success_witness :
    0 < 10 ∧ stripStopSeqs "done" ≠ "" ∧
      sendRequestGo [Outcome.ok "done", Outcome.clientError] 1 =
        sendRequestGo [Outcome.ok "done"] 1 :=
  ⟨by decide, by decide,
    (send_request_no_retry_after_success 0 (by decide) "done" (by decide)
      [Outcome.clientError] []).1⟩

/-- Claim C5: with `M < 10` transient failures before the first successful
attempt, the total backoff sleep is the sum of `a * 2 + 3` for `a` in `1..M`;
moreover each single caught failure below the ceiling sleeps exactly
`tries * 2 + 3` before the next attempt. -/
theorem send_request_backoff_sum (M : Nat) (hM : M < 10) (t : String)
    (ht : stripStopSeqs t ≠ "") (rest : List Outcome) :
    (sendRequestGo (List.replicate M Outcome.clientError ++ Outcome.ok t :: rest)
          1).totalSleep =
        ((List.range' 1 M).map (fun a => a * 2 + 3)).sum ∧
      ∀ (tr : Nat) (rest2 : List Outcome), tr ≠ 10 →
        (sendRequestGo (Outcome.clientError :: rest2) tr).totalSleep =
          (sendRequestGo rest2 (tr + 1)).totalSleep + (tr * 2 + 3) := by
  constructor
  · rw [sendRequestGo_success M 1 (by omega) t ht rest,
      List.range'_eq_map_range, List.map_map]
    rfl
  · intro tr rest2 htr
    rw [sendRequestGo_clientError_cons rest2 tr htr]

/-- Witness for C5 at `M = 2`: the backoff sleep is `(1*2+3) + (2*2+3) = 12`. -/
theorem send_request_backoff_sum_witness :
    2 < 10 ∧ stripStopSeqs "ok" ≠ "" ∧
      (sendRequestGo (List.replicate 2 Outcome.clientError ++ Outcome.ok "ok" :: [])
        1).totalSleep = 12 := by
  refine ⟨by decide, by decide, ?_⟩
  rw [(send_request_backoff_sum 2 (by decide) "ok" (by decide) []).1]
  decide

/-! ## Claim C2: stop-marker stripping -/

/-- Counterexample to claim C2 as stated: `"a###User:"` ends in the marker
`"User:"`, whose removal (plus trailing-whitespace trim) gives `"a###"`; but
the single in-order pass of the code then also strips `"###"`, returning
`"a"`. -/
theorem strip_cascades_counterexample :
    pyEndswith "a###User:" "User:" = true ∧
      stripStopSeqs "a###User:" = "a" ∧
      pyRstrip (pyDropRight "a###User:" ("User:").length) = "a###" ∧
      ("a" : String) ≠ "a###" := by decide

/-- Claim C2 (amended): for a string ending in exactly one configured stop
marker, and whose marker-stripped, right-trimmed form ends in no configured
marker, the returned result is that marker removed and trailing whitespace
trimmed (the single in-order pass strips nothing further); a string ending in
no configured marker is returned unmodified. -/
theorem strip_stop_marker (s m : String) (hm : m ∈ STOP_SEQ)
    (hend : pyEndswith s m = true)
    (hprev : ∀ m2 ∈ STOP_SEQ, m2 ≠ m → pyEndswith s m2 = false)
    (hclean : ∀ m2 ∈ STOP_SEQ, pyEndswith (pyRstrip (pyDropRight s m.length)) m2 = false) :
    stripStopSeqs s = pyRstrip (pyDropRight s m.length) ∧
      ∀ s2 : String, (∀ m2 ∈ STOP_SEQ, pyEndswith s2 m2 = false) →
        stripStopSeqs s2 = s2 := by
  have hU : ("User:" : String) ∈ STOP_SEQ := by simp [STOP_SEQ]
  have hH : ("###" : String) ∈ STOP_SEQ := by simp [STOP_SEQ]
  have hE : ("<|endoftext|>" : String) ∈ STOP_SEQ := by simp [STOP_SEQ]
  constructor
  · simp only [STOP_SEQ, List.mem_cons, List.not_mem_nil, or_false] at hm
    rcases hm with hm | hm | hm <;> subst hm
    · have c1 := hclean "###" hH
      have c2 := hclean "<|endoftext|>" hE
      simp [stripStopSeqs, STOP_SEQ, hend, c1, c2]
    · have p1 := hprev "User:" hU (by decide)
      have c2 := hclean "<|endoftext|>" hE
      simp [stripStopSeqs, STOP_SEQ, hend, p1, c2]
    · have p1 := hprev "User:" hU (by decide)
      have p2 := hprev "###" hH (by decide)
      simp [stripStopSeqs, STOP_SEQ, hend, p1, p2]
  · intro s2 h2
    have p1 := h2 "User:" hU
    have p2 := h2 "###" hH
    have p3 := h2 "<|endoftext|>" hE
    simp [stripStopSeqs, STOP_SEQ, p1, p2, p3]

/-- Witness for C2 (amended) at `s = "xUser:"`, `m = "User:"`. -/
theorem strip_stop_marker_witness :
    stripStopSeqs "xUser:" = pyRstrip (pyDropRight "xUser:" ("User:").length) ∧
      stripStopSeqs "plain" = "plain" := by
  have h := strip_stop_marker "xUser:" "User:" (by simp [STOP_SEQ]) (by decide)
    (by
      intro m2 hm2 hne
      simp only [STOP_SEQ, List.mem_cons, List.not_mem_nil, or_false] at hm2
      rcases hm2 with rfl | rfl | rfl
      · exact absurd rfl hne
      · decide
      · decide)
    (by
      intro m2 hm2
      simp only [STOP_SEQ, List.mem_cons, List.not_mem_nil, or_false] at hm2
      rcases hm2 with rfl | rfl | rfl <;> decide)
  exact ⟨h.1, h.2 "plain" (by
    intro m2 hm2
    simp only [STOP_SEQ, List.mem_cons, List.not_mem_nil, or_false] at hm2
    rcases hm2 with rfl | rfl | rfl <;> decide)⟩

/-! ## Claims C6, C10: the reader -/

/-- Unfolding step for `List.range'` (definitional). -/
theorem range'_cons_eq (s n : Nat) : List.range' s (n + 1) = s :: List.range' (s + 1) n :=
  rfl

/-- Once the enumeration counter has reached the resume offset, the reader
enqueues every remaining sample paired with its index, then the sentinel. -/
theorem readerLoop_no_skip {α : Type} (start : Nat) :
    ∀ (ds : List α) (si : Nat), start ≤ si →
      readerLoop start si ds =
        ((List.range' si ds.length).zip ds).map (fun p => QMsg.item p.1 p.2) ++
          [QMsg.sentinel] := by
  intro ds
  induction ds with
  | nil => intro si _; simp [readerLoop]
  | cons a rest ih =>
      intro si h
      have hne : ¬ si < start := by omega
      rw [readerLoop, if_neg hne, ih (si + 1) (by omega)]
      rw [List.length_cons, range'_cons_eq, List.zip_cons_cons, List.map_cons,
        List.cons_append]

/-- General form of the reader enqueue loop: with `si ≤ start`, the items
skipped are exactly the first `start - si` ones. -/
theorem readerLoop_spec {α : Type} :
    ∀ (ds : List α) (si start : Nat), si ≤ start →
      readerLoop start si ds =
        ((List.range' start (ds.length - (start - si))).zip
            (ds.drop (start - si))).map (fun p => QMsg.item p.1 p.2) ++
          [QMsg.sentinel] := by
  intro ds
  induction ds with
  | nil => intro si start _; simp [readerLoop]
  | cons a rest ih =>
      intro si start h
      by_cases hlt : si < start
      · rw [readerLoop, if_pos hlt, ih (si + 1) start (by omega)]
        have e1 : rest.length - (start - (si + 1)) =
            (a :: rest).length - (start - si) := by
          simp only [List.length_cons]; omega
        have e2 : rest.drop (start - (si + 1)) = (a :: rest).drop (start - si) := by
          have e : start - si = (start - (si + 1)) + 1 := by omega
          rw [e, List.drop_succ_cons]
        rw [e1, e2]
      · have heq : start = si := by omega
        subst heq
        rw [readerLoop_no_skip start (a :: rest) start le_rfl]
        simp

/-- Claim C6: for a dataset of `N` items and resume offset `K`, the reader
enqueues exactly the work items with indices `K, K+1, ..., N-1` (each paired
with the corresponding sample) in ascending index order, followed by the
sentinel exactly once. -/
theorem reader_enqueues_tail_then_sentinel {α : Type} (ds : List α) (K : Nat) :
    reader ds K =
      ((List.range' K (ds.length - K)).zip (ds.drop K)).map
          (fun p => QMsg.item p.1 p.2) ++ [QMsg.sentinel] := by
  have h := readerLoop_spec ds 0 K (Nat.zero_le K)
  simpa [reader] using h

/-- Claim C10: when the resume offset is at least the dataset size, the reader
enqueues no work items and still enqueues the sentinel exactly once. -/
theorem reader_empty_still_sentinel {α : Type} (ds : List α) (K : Nat)
    (h : ds.length ≤ K) : reader ds K = [QMsg.sentinel] := by
  have hs := readerLoop_spec ds 0 K (Nat.zero_le K)
  have e : ds.length - (K - 0) = 0 := by omega
  rw [reader, hs, e]
  simp

/-- Witness for C10 on a one-element dataset with offset 5. -/
theorem reader_empty_still_sentinel_witness :
    (["a"] : List String).length ≤ 5 ∧
      reader (["a"] : List String) 5 = [QMsg.sentinel] :=
  ⟨by decide, reader_empty_still_sentinel ["a"] 5 (by decide)⟩

/-! ## Claim C9: the completed item extends the sample -/

/-- Looking up the assigned key in the map-replace branch of `dictSet`
yields the new value (for a key that occurs in the dictionary). -/
theorem pyGet_map_set (k : String) (v : Val) :
    ∀ d : List (String × Val), k ∈ d.map Prod.fst →
      pyGet (d.map (fun p => if p.1 = k then (k, v) else p)) k = some v := by
  intro d
  induction d with
  | nil => intro h; simp at h
  | cons p rest ih =>
      rcases p with ⟨pk, pv⟩
      intro h
      by_cases hp : pk = k
      · subst hp
        simp only [List.map_cons]
        rw [if_pos trivial]
        simp [pyGet]
      · have h2 : k ∈ rest.map Prod.fst := by
          simp only [List.map_cons, List.mem_cons] at h
          rcases h with h | h
          · exact absurd h.symm hp
          · exact h
        simp only [List.map_cons]
        have e : (if (pk, pv).1 = k then (k, v) else (pk, pv)) = (pk, pv) := by simp [hp]
        rw [e]
        simpa [pyGet, hp] using ih h2

/-- Appending a fresh key-value pair makes the key retrievable. -/
theorem pyGet_append_new (k : String) (v : Val) :
    ∀ d : List (String × Val), ¬ k ∈ d.map Prod.fst →
      pyGet (d ++ [(k, v)]) k = some v := by
  intro d
  induction d with
  | nil =>
      intro _
      simp [pyGet]
  | cons p rest ih =>
      rcases p with ⟨pk, pv⟩
      intro h
      have hpk : ¬ pk = k := fun e => h (by simp [e])
      have hrest : ¬ k ∈ rest.map Prod.fst := fun hr => h (by simp [hr])
      simp only [List.cons_append]
      simpa [pyGet, hpk] using ih hrest

/-- Setting a key with `dictSet` makes it retrievable with the new value. -/
theorem pyGet_dictSet_self (d : List (String × Val)) (k : String) (v : Val) :
    pyGet (dictSet d k v) k = some v := by
  unfold dictSet
  by_cases h : k ∈ d.map Prod.fst
  · rw [if_pos h]
    exact pyGet_map_set k v d h
  · rw [if_neg h]
    exact pyGet_append_new k v d h

/-- The map-replace branch of `dictSet` leaves every other key unchanged. -/
theorem pyGet_map_ne (k k2 : String) (v : Val) (hne : k2 ≠ k) :
    ∀ d : List (String × Val),
      pyGet (d.map (fun p => if p.1 = k then (k, v) else p)) k2 = pyGet d k2 := by
  intro d
  induction d with
  | nil => simp
  | cons p rest ih =>
      rcases p with ⟨pk, pv⟩
      by_cases hp : pk = k
      · subst hp
        have hk2 : ¬ pk = k2 := fun e => hne e.symm
        simp only [List.map_cons]
        rw [if_pos trivial]
        simp [pyGet, hk2, ih]
      · simp only [List.map_cons]
        have e : (if (pk, pv).1 = k then (k, v) else (pk, pv)) = (pk, pv) := by simp [hp]
        rw [e]
        by_cases hk2 : pk = k2
        · subst hk2
          simp [pyGet]
        · simp [pyGet, hk2, ih]

/-- Appending a fresh key-value pair leaves every other key unchanged. -/
theorem pyGet_append_ne (k k2 : String) (v : Val) (hne : k2 ≠ k) :
    ∀ d : List (String × Val), pyGet (d ++ [(k, v)]) k2 = pyGet d k2 := by
  intro d
  induction d with
  | nil =>
      have hkk : ¬ k = k2 := fun e => hne e.symm
      simp [pyGet, hkk]
  | cons p rest ih =>
      rcases p with ⟨pk, pv⟩
      simp only [List.cons_append]
      by_cases hk2 : pk = k2
      · subst hk2
        simp [pyGet]
      · simp [pyGet, hk2, ih]

/-- Setting a key with `dictSet` leaves every other key unchanged. -/
theorem pyGet_dictSet_ne (d : List (String × Val)) (k k2 : String) (v : Val)
    (hne : k2 ≠ k) :
    pyGet (dictSet d k v) k2 = pyGet d k2 := by
  unfold dictSet
  by_cases h : k ∈ d.map Prod.fst
  · rw [if_pos h]
    exact pyGet_map_ne k k2 v hne d
  · rw [if_neg h]
    exact pyGet_append_ne k k2 v hne d

/-- Claim C9: a successful `send_request` returns the sample extended with the
`continuation` key bound to the post-processed generated text, and every other
key maps to the same value as in the input sample. -/
theorem send_request_frame (sample : List (String × Val)) (outcomes : List Outcome)
    (res : String) (h : (sendRequestGo outcomes 1).result = ReqRes.done res) :
    send_request sample outcomes =
        some (dictSet sample "continuation" (Val.vstr res)) ∧
      pyGet (dictSet sample "continuation" (Val.vstr res)) "continuation" =
        some (Val.vstr res) ∧
      ∀ k : String, k ≠ "continuation" →
        pyGet (dictSet sample "continuation" (Val.vstr res)) k =
          pyGet sample k := by
  refine ⟨?_, pyGet_dictSet_self sample "continuation" (Val.vstr res),
    fun k hk => pyGet_dictSet_ne sample "continuation" k (Val.vstr res) hk⟩
  unfold send_request
  rw [h]

/-- Witness for C9 on a concrete sample and an immediately successful call. -/
theorem send_request_frame_witness :
    send_request [("index", Val.vnat 0), ("prompt", Val.vstr "q")] [Outcome.ok "hello"] =
        some (dictSet [("index", Val.vnat 0), ("prompt", Val.vstr "q")] "continuation"
          (Val.vstr "hello")) ∧
      pyGet (dictSet [("index", Val.vnat 0), ("prompt", Val.vstr "q")]
          "continuation" (Val.vstr "hello")) "prompt" =
        pyGet [("index", Val.vnat 0), ("prompt", Val.vstr "q")] "prompt" := by
  have h := send_request_frame [("index", Val.vnat 0), ("prompt", Val.vstr "q")]
    [Outcome.ok "hello"] "hello" (by decide)
  exact ⟨h.1, h.2.2 "prompt" (by decide)⟩

/-! ## Claim C8: chunk partition of the completed items -/

/-- Chunk-splitting with sufficient fuel reassembles the input and produces
exactly the ceiling number of chunks. -/
theorem chunkFuel_spec {α : Type} (C : Nat) (hC : 0 < C) :
    ∀ (fuel : Nat) (l : List α), l.length ≤ fuel →
      (chunkFuel C fuel l).flatten = l ∧
        (chunkFuel C fuel l).length = (l.length + C - 1) / C := by
  intro fuel
  induction fuel with
  | zero =>
      intro l h
      have hl : l = [] := List.eq_nil_of_length_eq_zero (by omega)
      subst hl
      refine ⟨by simp [chunkFuel], ?_⟩
      simp only [chunkFuel, List.length_nil]
      rw [Nat.div_eq_of_lt (by omega)]
  | succ fuel ih =>
      intro l h
      cases l with
      | nil =>
          refine ⟨by simp [chunkFuel], ?_⟩
          simp only [chunkFuel, List.length_nil]
          rw [Nat.div_eq_of_lt (by omega)]
      | cons x xs =>
          have hlen : (List.drop C (x :: xs)).length ≤ fuel := by
            simp only [List.length_drop, List.length_cons] at h ⊢
            omega
          obtain ⟨ih1, ih2⟩ := ih (List.drop C (x :: xs)) hlen
          constructor
          · show (List.take C (x :: xs) :: chunkFuel C fuel (List.drop C (x :: xs))).flatten
              = x :: xs
            rw [List.flatten_cons, ih1, List.take_append_drop]
          · show (List.take C (x :: xs) :: chunkFuel C fuel (List.drop C (x :: xs))).length
              = ((x :: xs).length + C - 1) / C
            rw [List.length_cons, ih2, List.length_drop, List.length_cons]
            by_cases hn : xs.length + 1 ≤ C
            · have h0 : xs.length + 1 - C = 0 := by omega
              rw [h0, Nat.div_eq_of_lt (by omega)]
              have h1 : (xs.length + 1 + C - 1) / C = 1 :=
                Nat.div_eq_of_lt_le (by omega) (by omega)
              omega
            · have e1 : xs.length + 1 - C + C - 1 = xs.length + 1 - 1 := by omega
              have e2 : xs.length + 1 + C - 1 = (xs.length + 1 - 1) + C := by omega
              rw [e1, e2, Nat.add_div_right _ hC]

example : stripStopSeqs "hello###" = "hello" := by decide
example : stripStopSeqs "hello  User:" = "hello" := by decide
example : stripStopSeqs "plain" = "plain" := by decide
example : stripStopSeqs "a###User:" = "a" := by decide
example : sendRequestGo [Outcome.clientError, Outcome.ok "hi"] 1 =
    ⟨ReqRes.done "hi", 5, 2⟩ := by decide
example : sendRequestGo [Outcome.jsonDecodeError, Outcome.ok "hi"] 1 =
    ⟨ReqRes.raisedDecodeError, 0, 1⟩ := by decide
example : reader ["a", "b", "c"] 1 =
    [QMsg.item 1 "b", QMsg.item 2 "c", QMsg.sentinel] := by decide
example : chunkFileName 7 = "00007.csv" := by decide
example : chunkFileName 100000 = "100000.csv" := by decide
example : chunksOf 4 (List.range 10) = [[0,1,2,3],[4,5,6,7],[8,9]] := by decide

/-- Claim C8: for total input `N` and chunk size `C > 0`, the pipeline emits
exactly `⌈N / C⌉` chunks, whose lengths sum to `N`, and whose concatenation is
exactly the index sequence `0, ..., N-1` — so every index appears in exactly
one chunk, none duplicated, none skipped. -/
theorem pipeline_chunk_partition (N C : Nat) (hC : 0 < C) :
    (chunksOf C (List.range N)).length = (N + C - 1) / C ∧
      ((chunksOf C (List.range N)).map List.length).sum = N ∧
      (chunksOf C (List.range N)).flatten = List.range N := by
  have h := chunkFuel_spec C hC (List.range N).length (List.range N) le_rfl
  have hflat : (chunksOf C (List.range N)).flatten = List.range N := h.1
  refine ⟨?_, ?_, hflat⟩
  · show (chunkFuel C (List.range N).length (List.range N)).length = (N + C - 1) / C
    rw [List.length_range]
    have h2 := h.2
    rwa [List.length_range] at h2
  · rw [← List.length_flatten, hflat, List.length_range]

/-- Witness for C8 at `N = 10`, `C = 4` (the end-to-end scenario of the
specification: chunk sizes `[4, 4, 2]`). -/
theorem pipeline_chunk_partition_witness :
    0 < 4 ∧ (chunksOf 4 (List.range 10)).flatten = List.range 10 :=
  ⟨by decide, (pipeline_chunk_partition 10 4 (by decide)).2.2⟩

/-! ## Claim C7: writer file names -/

/-- Rendering zero gives no digit characters, at any fuel. -/
theorem decChars_zero_eq : ∀ fuel : Nat, decChars fuel 0 = [] := by
  intro fuel
  cases fuel <;> simp [decChars]

/-- Unfolding step of `decChars` for a nonzero argument. -/
theorem decChars_step (fuel n : Nat) (h : n ≠ 0) :
    decChars (fuel + 1) n = decChars fuel (n / 10) ++ [ch (n % 10)] := by
  simp [decChars, h]

/-- For `n < 100000`, the zero-padded rendering `f"{n:05d}"` consists exactly
of the five decimal digits of `n`, most significant first. -/
theorem pad05_eq_digits (n : Nat) (hn : n < 100000) :
    pad05 n = (digits5 n).map ch := by
  by_cases h0 : n = 0
  · subst h0; decide
  by_cases h1 : n < 10
  · have e : decChars 20 n = [ch (n % 10)] := by
      rw [show (20 : Nat) = 19 + 1 from rfl, decChars_step 19 n h0,
        show n / 10 = 0 by omega, decChars_zero_eq]
      simp
    rw [pad05, e]
    simp only [digits5, List.map_cons, List.map_nil, List.length_cons,
      List.length_nil]
    rw [show n / 10000 = 0 by omega, show n / 1000 % 10 = 0 by omega,
      show n / 100 % 10 = 0 by omega, show n / 10 % 10 = 0 by omega,
      show ch 0 = '0' from by decide]
    rfl
  by_cases h2 : n < 100
  · have e : decChars 20 n = [ch (n / 10 % 10), ch (n % 10)] := by
      rw [show (20 : Nat) = 19 + 1 from rfl, decChars_step 19 n h0,
        show (19 : Nat) = 18 + 1 from rfl, decChars_step 18 (n / 10) (by omega),
        Nat.div_div_eq_div_mul, show n / (10 * 10) = 0 by omega, decChars_zero_eq]
      simp
    rw [pad05, e]
    simp only [digits5, List.map_cons, List.map_nil, List.length_cons,
      List.length_nil]
    rw [show n / 10000 = 0 by omega, show n / 1000 % 10 = 0 by omega,
      show n / 100 % 10 = 0 by omega, show ch 0 = '0' from by decide]
    rfl
  by_cases h3 : n < 1000
  · have e : decChars 20 n = [ch (n / 100 % 10), ch (n / 10 % 10), ch (n % 10)] := by
      rw [show (20 : Nat) = 19 + 1 from rfl, decChars_step 19 n h0,
        show (19 : Nat) = 18 + 1 from rfl, decChars_step 18 (n / 10) (by omega),
        Nat.div_div_eq_div_mul,
        show (18 : Nat) = 17 + 1 from rfl, decChars_step 17 (n / (10 * 10)) (by omega),
        Nat.div_div_eq_div_mul,
        show n / (10 * 10 * 10) = 0 by omega, decChars_zero_eq]
      norm_num
    rw [pad05, e]
    simp only [digits5, List.map_cons, List.map_nil, List.length_cons,
      List.length_nil]
    rw [show n / 10000 = 0 by omega, show n / 1000 % 10 = 0 by omega,
      show ch 0 = '0' from by decide]
    rfl
  by_cases h4 : n < 10000
  · have e : decChars 20 n =
        [ch (n / 1000 % 10), ch (n / 100 % 10), ch (n / 10 % 10), ch (n % 10)] := by
      rw [show (20 : Nat) = 19 + 1 from rfl, decChars_step 19 n h0,
        show (19 : Nat) = 18 + 1 from rfl, decChars_step 18 (n / 10) (by omega),
        Nat.div_div_eq_div_mul,
        show (18 : Nat) = 17 + 1 from rfl, decChars_step 17 (n / (10 * 10)) (by omega),
        Nat.div_div_eq_div_mul,
        show (17 : Nat) = 16 + 1 from rfl,
        decChars_step 16 (n / (10 * 10 * 10)) (by omega),
        Nat.div_div_eq_div_mul,
        show n / (10 * 10 * 10 * 10) = 0 by omega, decChars_zero_eq]
      norm_num
    rw [pad05, e]
    simp only [digits5, List.map_cons, List.map_nil, List.length_cons,
      List.length_nil]
    rw [show n / 10000 = 0 by omega, show ch 0 = '0' from by decide]
    rfl
  · have e : decChars 20 n =
        [ch (n / 10000 % 10), ch (n / 1000 % 10), ch (n / 100 % 10),
          ch (n / 10 % 10), ch (n % 10)] := by
      rw [show (20 : Nat) = 19 + 1 from rfl, decChars_step 19 n h0,
        show (19 : Nat) = 18 + 1 from rfl, decChars_step 18 (n / 10) (by omega),
        Nat.div_div_eq_div_mul,
        show (18 : Nat) = 17 + 1 from rfl, decChars_step 17 (n / (10 * 10)) (by omega),
        Nat.div_div_eq_div_mul,
        show (17 : Nat) = 16 + 1 from rfl,
        decChars_step 16 (n / (10 * 10 * 10)) (by omega),
        Nat.div_div_eq_div_mul,
        show (16 : Nat) = 15 + 1 from rfl,
        decChars_step 15 (n / (10 * 10 * 10 * 10)) (by omega),
        Nat.div_div_eq_div_mul,
        show n / (10 * 10 * 10 * 10 * 10) = 0 by omega, decChars_zero_eq]
      norm_num
    rw [pad05, e]
    simp only [digits5, List.map_cons, List.map_nil, List.length_cons,
      List.length_nil]
    rw [show n / 10000 % 10 = n / 10000 by omega]
    rfl

/-- A big-endian digit list with digits below 10 has value below
`10 ^ length`. -/
theorem valD_lt_pow : ∀ ds : List Nat, (∀ d ∈ ds, d < 10) →
    valD ds < 10 ^ ds.length := by
  intro ds
  induction ds with
  | nil => intro _; simp [valD]
  | cons d rest ih =>
      intro h
      have hd : d < 10 := h d (by simp)
      have hr : valD rest < 10 ^ rest.length := ih (fun x hx => h x (by simp [hx]))
      simp only [valD, List.length_cons, pow_succ]
      have h1 : d * 10 ^ rest.length ≤ 9 * 10 ^ rest.length :=
        Nat.mul_le_mul_right _ (by omega)
      linarith

/-- Digit characters respect the order of digits. -/
theorem ch_lt_of_lt : ∀ x < 10, ∀ y < 10, x < y → ch x < ch y := by decide

/-- Digit characters are irreflexive for `<`. -/
theorem ch_not_lt_self : ∀ x < 10, ¬ ch x < ch x := by decide

/-- Mapping digit lists of equal length and smaller value to characters gives
lexicographically smaller lists, whatever is appended behind them. -/
theorem lex_append_of_valD_lt :
    ∀ a b : List Nat, a.length = b.length → (∀ d ∈ a, d < 10) → (∀ d ∈ b, d < 10) →
      valD a < valD b → ∀ s t : List Char, a.map ch ++ s < b.map ch ++ t := by
  intro a
  induction a with
  | nil =>
      intro b hlen _ _ hval s t
      have hb : b = [] := List.eq_nil_of_length_eq_zero hlen.symm
      subst hb
      simp [valD] at hval
  | cons x xs ih =>
      intro b hlen ha hb hval s t
      cases b with
      | nil => simp at hlen
      | cons y ys =>
          have hx : x < 10 := ha x (by simp)
          have hy : y < 10 := hb y (by simp)
          have hlen2 : xs.length = ys.length := by simpa using hlen
          simp only [List.map_cons, List.cons_append]
          rcases Nat.lt_trichotomy x y with hxy | hxy | hxy
          · exact List.Lex.rel (ch_lt_of_lt x hx y hy hxy)
          · subst hxy
            refine List.Lex.cons ?_
            refine ih ys hlen2 (fun d hd => ha d (by simp [hd]))
              (fun d hd => hb d (by simp [hd])) ?_ s t
            simp only [valD] at hval
            rw [hlen2] at hval
            exact Nat.lt_of_add_lt_add_left hval
          · exfalso
            simp only [valD] at hval
            rw [hlen2] at hval
            have hA : valD ys < 10 ^ ys.length :=
              valD_lt_pow ys (fun d hd => hb d (by simp [hd]))
            have hmul : (y + 1) * 10 ^ ys.length ≤ x * 10 ^ ys.length :=
              Nat.mul_le_mul_right _ (by omega)
            have hexp : (y + 1) * 10 ^ ys.length =
                y * 10 ^ ys.length + 10 ^ ys.length := by ring
            linarith

/-- Claim C7 (amended): the writer persists one file per chunk named
`f"{chunk_i:05d}.csv"`, and for chunk indices below 100000 (the reach of the
5-digit zero padding) lexicographic order of the file-name character
sequences agrees with numeric order of the chunk indices. -/
theorem writer_filename_lex_order (i j : Nat) (hij : i < j) (hj : j < 100000) :
    (chunkFileName i).data < (chunkFileName j).data := by
  show pad05 i ++ (".csv").data < pad05 j ++ (".csv").data
  rw [pad05_eq_digits i (by omega), pad05_eq_digits j hj]
  apply lex_append_of_valD_lt
  · simp [digits5]
  · intro d hd
    simp only [digits5, List.mem_cons, List.not_mem_nil, or_false] at hd
    rcases hd with rfl | rfl | rfl | rfl | rfl <;> omega
  · intro d hd
    simp only [digits5, List.mem_cons, List.not_mem_nil, or_false] at hd
    rcases hd with rfl | rfl | rfl | rfl | rfl <;> omega
  · simp only [digits5, valD, List.length_cons, List.length_nil]
    norm_num
    omega

/-- Witness for C7 (amended) at chunk indices 3 and 12. -/
theorem writer_filename_lex_order_witness :
    3 < 12 ∧ 12 < 100000 ∧ (chunkFileName 3).data < (chunkFileName 12).data :=
  ⟨by decide, by decide, writer_filename_lex_order 3 12 (by decide) (by decide)⟩

/-- Counterexample to claim C7 as stated: at six digits the zero padding is
exhausted, so the file name of chunk 100000 sorts lexicographically before
the file name of chunk 99999 although 99999 < 100000. -/
theorem writer_filename_order_breaks :
    99999 < 100000 ∧ (chunkFileName 100000).data < (chunkFileName 99999).data := by
  constructor
  · decide
  · decide
